import Mathlib

/-!
Verification development for the rating reconciliation engine of the
nogonad photo organizer.

The definitions below are a shallow embedding of the TypeScript sources:

* `stripExtCore` / `getFileIdStr` — `getFileId` in `src/app/list/page.tsx`
  (`lastIndexOf('.')` / `substring(0, lastDot)`).
* `parseNameCore` / `parseNameStr` — `path.parse(fileName).name` as used by
  `getBaseName` in `src/app/api/set-ratings/route.ts` and by the POST handler
  in `src/app/api/ratings/route.ts` (Node `path.parse` semantics for
  slash-free file names).
* `fileBucketAux` / `aggregateRatings` — `aggregateRatings` in
  `src/utils/ratings-aggregator.ts`.
* `hasRatingConflict`, `hasRawRatingConflict`, `hasJpgRawMismatch`,
  `hasAnyConflicts`, `handleApplyAggregate` — the conflict detector and the
  batch "Apply" call site in `src/app/list/page.tsx`.
* `upsertRating`, `ratingsPost` — `src/controllers/database.ts` and the POST
  handler of `src/app/api/ratings/route.ts`.
* `setRatingsPost` — the POST handler of `src/app/api/set-ratings/route.ts`,
  with effects recorded in an explicit event trace.

JavaScript `null`/`undefined` rating values are modelled as `none`;
machine numbers are modelled as `Int` (all ratings handled by the code are
small integers, so no overflow is involved).
-/

/-! ### Photo identity derivation -/

/-- Returns `some prefixBeforeLastDot` when the character list contains a
dot, `none` otherwise.  This is the recursive core of
`filename.substring(0, filename.lastIndexOf('.'))`. -/
def lastDotSplit : List Char → Option (List Char)
  | [] => none
  | c :: rest =>
    match lastDotSplit rest with
    | some r => some (c :: r)
    | none => if c = '.' then some [] else none

/-- `getFileId` from `src/app/list/page.tsx`: if the name has no dot it is
returned unchanged, otherwise everything from the last dot on is dropped. -/
def stripExtCore (cs : List Char) : List Char :=
  (lastDotSplit cs).getD cs

/-- String wrapper for `stripExtCore`; the embedding of `getFileId`. -/
def getFileIdStr (s : String) : String :=
  ⟨stripExtCore s.data⟩

/-- `path.parse(fileName).name` for a slash-free file name (Node posix
semantics): the whole name is kept when there is no dot, when the only dot
is the leading character (hidden files), or when the name is `..`;
otherwise everything from the last dot on is dropped.  This is
`getBaseName` in `src/app/api/set-ratings/route.ts` and the
`path.parse(fileName).name` call in `src/app/api/ratings/route.ts`. -/
def parseNameCore (cs : List Char) : List Char :=
  if cs = ['.', '.'] then cs
  else
    match cs with
    | [] => []
    | c :: rest =>
      if c = '.' then
        match lastDotSplit rest with
        | none => c :: rest
        | some r => '.' :: r
      else stripExtCore (c :: rest)

/-- String wrapper for `parseNameCore`. -/
def parseNameStr (s : String) : String :=
  ⟨parseNameCore s.data⟩

/-! ### Aggregator (`src/utils/ratings-aggregator.ts`) -/

/-- `RatingItem` from the aggregator: an emitted `(fileName, rating)` pair. -/
structure RatingItem where
  fileName : String
  rating : Int
  deriving Repr, DecidableEq

/-- `AggregatedRatings`: the three job lists returned by the aggregator. -/
structure AggregatedRatings where
  dbRatings : List RatingItem
  jpgRatings : List RatingItem
  rawRatings : List RatingItem
  deriving Repr, DecidableEq

/-- `DbRating` from the aggregator.  `overRuleFileRating` is `Option Bool`
because the call site in `handleApplyRatings` builds objects without that
field; a missing field reads as `undefined`, modelled `none`. -/
structure DbRating where
  rating : Option Int
  overRuleFileRating : Option Bool
  deriving Repr, DecidableEq

/-- Which of the three buckets a photo is pushed into. -/
inductive Bucket
  | db
  | jpg
  | raw
  deriving Repr, DecidableEq

/-- `value && value.rating !== null && value.rating !== 0` — the filter used
when collecting `allFileIds` from the db map. -/
def dbEntryCounts : Option DbRating → Bool
  | some d => d.rating ≠ none ∧ d.rating ≠ some 0
  | none => false

/-- `value !== null && value !== 0` — the filter used when collecting
`allFileIds` from the jpg / raw maps. -/
def numEntryCounts : Option Int → Bool
  | some r => r ≠ 0
  | none => false

/-- First-occurrence deduplication with an accumulator of already-seen
keys. -/
def dedupFirstAux (seen : List String) : List String → List String
  | [] => []
  | x :: xs =>
    if x ∈ seen then dedupFirstAux seen xs
    else x :: dedupFirstAux (x :: seen) xs

/-- First-occurrence deduplication, the behaviour of inserting into a JS
`Set` and iterating it. -/
def dedupFirst (l : List String) : List String :=
  dedupFirstAux [] l

/-- The `allFileIds` set built by the aggregator: ids with a counting rating
in any source, db entries first, then jpg, then raw, first occurrence kept. -/
def allFileIds (dbMap : List (String × Option DbRating))
    (jpgMap rawMap : List (String × Option Int)) : List String :=
  dedupFirst
    (((dbMap.filter (fun p => dbEntryCounts p.2)).map Prod.fst) ++
     ((jpgMap.filter (fun p => numEntryCounts p.2)).map Prod.fst) ++
     ((rawMap.filter (fun p => numEntryCounts p.2)).map Prod.fst))

/-- `map.get(fileId)` followed by the `?? null` / `?.` coalescing: a missing
key and a stored `null` both come out as `none`. -/
def lookupJoin (m : List (String × Option α)) (k : String) : Option α :=
  (m.lookup k).join

/-- The `if / else if` chain in the body of the aggregator's per-file loop,
on the already-extracted values `dbRating`, `overRuleFlag`, `jpgRating`,
`rawRating`. -/
def fileBucketAux (dbRating : Option Int) (overRuleFlag : Bool)
    (jpgRating rawRating : Option Int) : Option (Bucket × Int) :=
  if overRuleFlag = true ∧ dbRating ≠ none ∧ dbRating ≠ some 0 then
    some (Bucket.db, dbRating.getD 0)
  else if dbRating ≠ none ∧ dbRating ≠ some 0 ∧
      (jpgRating = none ∨ rawRating = none) then
    some (Bucket.db, dbRating.getD 0)
  else if jpgRating ≠ none ∧ jpgRating ≠ some 0 ∧
      rawRating = none ∧ dbRating = none then
    some (Bucket.jpg, jpgRating.getD 0)
  else if rawRating ≠ none ∧ rawRating ≠ some 0 ∧
      jpgRating = none ∧ dbRating = none then
    some (Bucket.raw, rawRating.getD 0)
  else none

/-- Per-file bucket decision: extracts `dbData?.rating ?? null` and
`dbData?.overRuleFileRating ?? false` and runs the `if` chain. -/
def fileBucket (dbData : Option DbRating) (jpgRating rawRating : Option Int) :
    Option (Bucket × Int) :=
  fileBucketAux (dbData.bind DbRating.rating)
    ((dbData.bind DbRating.overRuleFileRating).getD false) jpgRating rawRating

/-- One iteration of the aggregator loop: push the item into the bucket
chosen by `g`. -/
def aggStep (g : String → Option (Bucket × Int)) (acc : AggregatedRatings)
    (fileId : String) : AggregatedRatings :=
  match g fileId with
  | some (Bucket.db, r) =>
    { acc with dbRatings := acc.dbRatings ++ [⟨fileId, r⟩] }
  | some (Bucket.jpg, r) =>
    { acc with jpgRatings := acc.jpgRatings ++ [⟨fileId, r⟩] }
  | some (Bucket.raw, r) =>
    { acc with rawRatings := acc.rawRatings ++ [⟨fileId, r⟩] }
  | none => acc

/-- `aggregateRatings` from `src/utils/ratings-aggregator.ts`: returns the
empty result when `hasConflicts` is set, otherwise buckets each collected
file id by the authority rules. -/
def aggregateRatings (dbMap : List (String × Option DbRating))
    (jpgMap rawMap : List (String × Option Int)) (hasConflicts : Bool) :
    AggregatedRatings :=
  if hasConflicts then ⟨[], [], []⟩
  else
    (allFileIds dbMap jpgMap rawMap).foldl
      (aggStep (fun fileId =>
        fileBucket (lookupJoin dbMap fileId) (lookupJoin jpgMap fileId)
          (lookupJoin rawMap fileId)))
      ⟨[], [], []⟩

/-! ### List page state and conflict detector (`src/app/list/page.tsx`) -/

/-- The shape of an entry of the page's `ratings` map (one stored rating
record as delivered by the ratings GET route; the timestamp is irrelevant
to every claim and omitted). -/
structure RatingRecord where
  rating : Option Int
  overRuleFileRating : Option Bool
  deriving Repr, DecidableEq

/-- The slice of the list page's client state that the reconciliation logic
reads: the visible files and the three per-fileId rating maps. -/
structure ListState where
  imageFiles : List String
  ratings : List (String × RatingRecord)
  exifData : List (String × Option Int)
  rawExifData : List (String × Option Int)
  deriving Repr

/-- JS truthiness of `dbOverRule` (`boolean | null | undefined`). -/
def truthyFlag (o : Option Bool) : Bool :=
  o.getD false

/-- JS truthiness of a `number | null | undefined` rating: `!x` is true
exactly when the value is `null`, `undefined` or `0`. -/
def truthyInt : Option Int → Bool
  | some n => n ≠ 0
  | none => false

/-- `hasRatingConflict` from `src/app/list/page.tsx`: the JPG-embedded
rating is present (`!= null`, `!== 0`), the stored rating is present
(`!== null`), the two differ, and the overrule flag is falsy. -/
def hasRatingConflict (st : ListState) (fileName : String) : Bool :=
  let fileId := getFileIdStr fileName
  let exifRating := lookupJoin st.exifData fileId
  let dbRating := (st.ratings.lookup fileId).bind RatingRecord.rating
  let dbOverRule := (st.ratings.lookup fileId).bind RatingRecord.overRuleFileRating
  exifRating ≠ none ∧ exifRating ≠ some 0 ∧ dbRating ≠ none ∧
    exifRating ≠ dbRating ∧ ¬ truthyFlag dbOverRule = true

/-- `hasRawRatingConflict` from `src/app/list/page.tsx`: same check against
the RAW-embedded rating. -/
def hasRawRatingConflict (st : ListState) (fileName : String) : Bool :=
  let fileId := getFileIdStr fileName
  let rawRating := lookupJoin st.rawExifData fileId
  let dbRating := (st.ratings.lookup fileId).bind RatingRecord.rating
  let dbOverRule := (st.ratings.lookup fileId).bind RatingRecord.overRuleFileRating
  rawRating ≠ none ∧ rawRating ≠ some 0 ∧ dbRating ≠ none ∧
    rawRating ≠ dbRating ∧ ¬ truthyFlag dbOverRule = true

/-- `hasJpgRawMismatch` from `src/app/list/page.tsx`: both embedded ratings
present and non-zero, the stored rating falsy (`!dbRating`), and the two
embedded ratings differ. -/
def hasJpgRawMismatch (st : ListState) (fileName : String) : Bool :=
  let fileId := getFileIdStr fileName
  let exifRating := lookupJoin st.exifData fileId
  let rawRating := lookupJoin st.rawExifData fileId
  let dbRating := (st.ratings.lookup fileId).bind RatingRecord.rating
  exifRating ≠ none ∧ exifRating ≠ some 0 ∧ rawRating ≠ none ∧
    rawRating ≠ some 0 ∧ ¬ truthyInt dbRating = true ∧ exifRating ≠ rawRating

/-- `hasAnyConflicts` from `src/app/list/page.tsx`: some visible image has
one of the three conflict marks. -/
def hasAnyConflicts (st : ListState) : Bool :=
  st.imageFiles.any (fun f =>
    hasRatingConflict st f || hasRawRatingConflict st f || hasJpgRawMismatch st f)

/-- The db map built inside `handleApplyRatings`: entries with a counting
rating, mapped to an object carrying ONLY the `rating` field — the source
writes `dbRatingsMap.set(fileId, { rating: rating.rating })`, so the
`overRuleFileRating` field is absent (`none`). -/
def dbMapOf (st : ListState) : List (String × Option DbRating) :=
  (st.ratings.filter (fun p => p.2.rating ≠ none ∧ p.2.rating ≠ some 0)).map
    (fun p => (p.1, some ⟨p.2.rating, none⟩))

/-- The jpg map built inside `handleApplyRatings` (zero values filtered). -/
def jpgMapOf (st : ListState) : List (String × Option Int) :=
  st.exifData.filter (fun p => p.2 ≠ none ∧ p.2 ≠ some 0)

/-- The raw map built inside `handleApplyRatings` (zero values filtered). -/
def rawMapOf (st : ListState) : List (String × Option Int) :=
  st.rawExifData.filter (fun p => p.2 ≠ none ∧ p.2 ≠ some 0)

/-- The aggregation as invoked by `handleApplyRatings`:
`aggregateRatings(dbRatingsMap, jpgRatingsMap, rawRatingsMap, hasAnyConflicts())`. -/
def handleApplyAggregate (st : ListState) : AggregatedRatings :=
  aggregateRatings (dbMapOf st) (jpgMapOf st) (rawMapOf st) (hasAnyConflicts st)

/-! ### Rating store (`src/controllers/database.ts`) and the ratings route -/

/-- One persisted row of the `ratings` table.  `overRuleFileRating` is
stored as SQL `NULL` / `0` / `1`, modelled `none` / `some false` /
`some true`. -/
structure StoredRec where
  rating : Option Int
  overRuleFileRating : Option Bool
  createdAt : Nat
  deriving Repr, DecidableEq

/-- The per-collection ratings table, keyed by file id. -/
abbrev Store := List (String × StoredRec)

/-- The value a caller passes for the `overRuleFileRating` parameter of
`upsertRating`: JavaScript distinguishes a missing argument (`undefined`),
an explicit `null`, and a boolean, and `upsertRating` treats the three
differently. -/
inductive OverRuleArg
  | undef
  | null
  | bool (b : Bool)
  deriving Repr, DecidableEq

/-- `overRuleFileRating !== null ? (overRuleFileRating ? 1 : 0) : null` —
what lands in the table.  A missing argument (`undefined`) passes the
`!== null` test and is falsy, so it is stored as `0`. -/
def storedFlag : OverRuleArg → Option Bool
  | OverRuleArg.undef => some false
  | OverRuleArg.null => none
  | OverRuleArg.bool b => some b

/-- `INSERT ... ON CONFLICT(id) DO UPDATE`: replace the row with the same
id, or append a new row. -/
def upsertRow : Store → String → StoredRec → Store
  | [], id, rec => [(id, rec)]
  | (k, r) :: rest, id, rec =>
    if k = id then (k, rec) :: rest else (k, r) :: upsertRow rest id rec

/-- `upsertRating` from `src/controllers/database.ts`: writes the row
unconditionally (no validation of the rating range happens here) and
returns it together with the updated table.  The folder argument selects
the per-collection database; here the table is passed explicitly. -/
def upsertRating (fileId : String) (store : Store) (rating : Option Int)
    (overRuleFileRating : OverRuleArg) (now : Nat) : StoredRec × Store :=
  let row : StoredRec := ⟨rating, storedFlag overRuleFileRating, now⟩
  (row, upsertRow store fileId row)

/-- `getAllRatings` from `src/controllers/database.ts`: `SELECT` of the
whole table. -/
def getAllRatings (store : Store) : Store :=
  store

/-- The POST handler of `src/app/api/ratings/route.ts`.  It destructures
ONLY `{ fileName, rating, folderPath }` from the body — a supplied
`overRuleFileRating` body field is ignored — validates the rating range,
and calls `upsertRating` with three arguments, so the fourth parameter is
`undefined`.  Errors are returned, the table is then left untouched. -/
def ratingsPost (store : Store) (fileName : String) (rating : Option Int)
    (now : Nat) : Except String StoredRec × Store :=
  if fileName = "" then
    (Except.error "File name and folder path are required", store)
  else
    let fileId := parseNameStr fileName
    let isNullRating : Bool := rating = none
    let isValidRating : Bool :=
      match rating with
      | some r => 1 ≤ r ∧ r ≤ 5
      | none => false
    if ¬ isNullRating = true ∧ ¬ isValidRating = true then
      (Except.error "Rating must be an integer between 1 and 5, or null", store)
    else
      let (rec, store') :=
        upsertRating fileId store (if isNullRating then none else rating)
          OverRuleArg.undef now
      (Except.ok rec, store')

/-! ### Batch apply (`src/app/api/set-ratings/route.ts`) -/

/-- `JPG_EXTENSIONS` from the set-ratings route. -/
def JPG_EXTENSIONS : List String := [".jpg", ".jpeg"]

/-- `RAW_EXTENSIONS` from the set-ratings route. -/
def RAW_EXTENSIONS : List String :=
  [".raw", ".dng", ".nef", ".cr2", ".crw", ".arw", ".raf", ".rw2", ".orf", ".pef"]

/-- `path.join(a, b)` for the posix model used throughout. -/
def joinPath (a b : String) : String := a ++ "/" ++ b

/-- `findFileVariants` from the set-ratings route: the variants of
`baseName` under the search path whose extension is in `extensions` and
which exist in the file system `fs` (modelled as the list of existing
paths), in extension-list order. -/
def findFileVariants (fs : List String) (folderPath baseName : String)
    (extensions : List String) (subfolder : Option String) : List String :=
  let searchPath :=
    match subfolder with
    | some s => joinPath folderPath s
    | none => folderPath
  extensions.filterMap (fun ext =>
    let p := joinPath searchPath (baseName ++ ext)
    if p ∈ fs then some p else none)

/-- An observable effect of the batch apply handler, in chronological
order: a database upsert, a settled exiftool write job (with its success
flag), or the bulk overrule reset. -/
inductive ApplyEvent
  | dbWrite (fileId : String)
  | fileJob (path : String) (rating : Int) (success : Bool)
  | reset
  deriving Repr, DecidableEq

/-- Recognizer for the reset event. -/
def isReset : ApplyEvent → Bool
  | ApplyEvent.reset => true
  | _ => false

/-- Loop 1 of the handler (`dbRatings`): queue exiftool jobs for every JPG
and RAW variant of each item; no database write. -/
def dbLoopJobs (fs : List String) (folderPath rawFolder : String)
    (dbRatings : List RatingItem) : List (String × Int) :=
  dbRatings.flatMap (fun item =>
    let baseName := parseNameStr item.fileName
    let jpgFiles := findFileVariants fs folderPath baseName JPG_EXTENSIONS none
    let rawFiles :=
      findFileVariants fs folderPath baseName RAW_EXTENSIONS (some rawFolder)
    (jpgFiles ++ rawFiles).map (fun p => (p, item.rating)))

/-- The jobs queued by loop 2 of the handler (`jpgRatings`): exiftool jobs
for every existing RAW variant of each item. -/
def jpgLoopJobs (fs : List String) (folderPath rawFolder : String)
    (jpgRatings : List RatingItem) : List (String × Int) :=
  jpgRatings.flatMap (fun item =>
    (findFileVariants fs folderPath (parseNameStr item.fileName)
        RAW_EXTENSIONS (some rawFolder)).map (fun p => (p, item.rating)))

/-- The jobs queued by loop 3 of the handler (`rawRatings`): exiftool jobs
for every existing JPG variant of each item. -/
def rawLoopJobs (fs : List String) (folderPath : String)
    (rawRatings : List RatingItem) : List (String × Int) :=
  rawRatings.flatMap (fun item =>
    (findFileVariants fs folderPath (parseNameStr item.fileName)
        JPG_EXTENSIONS none).map (fun p => (p, item.rating)))

/-- The database writes of loops 2 and 3: for each item, in order,
`upsertRating(rating.fileName, folderPath, rating.rating, false)`, emitting
one `dbWrite` event each.  The sqlite model never throws, so every item is
written. -/
def applyStoreWrites : List RatingItem → Store → Nat → Store × List ApplyEvent
  | [], store, _ => (store, [])
  | item :: rest, store, now =>
    let store' :=
      (upsertRating item.fileName store (some item.rating)
        (OverRuleArg.bool false) now).2
    let next := applyStoreWrites rest store' now
    (next.1, ApplyEvent.dbWrite item.fileName :: next.2)

/-- Suffix test on character lists (the model of `String.endsWith` /
a `$`-anchored regex match). -/
def endsWithExt (p ext : String) : Bool :=
  ext.data.isSuffixOf p.data

/-- `updateRatings` from `src/controllers/exiftool.ts`: JPG jobs settle
first (batched), then RAW jobs, each with a per-path success outcome given
by the `oracle`.  The source matches extensions with the case-insensitive
regexes `\.jpe?g$` and `\.(raw|dng|nef|cr2|crw|arw|raf|rw2|orf|pef)$`; all
job paths here are built from the lowercase extension lists, so a lowercase
suffix check is an exact model. -/
def updateRatingsModel (jobs : List (String × Int)) (oracle : String → Bool) :
    List (String × Int × Bool) :=
  let jpgJobs := jobs.filter (fun j =>
    endsWithExt j.1 ".jpg" || endsWithExt j.1 ".jpeg")
  let rawJobs := jobs.filter (fun j =>
    RAW_EXTENSIONS.any (fun e => endsWithExt j.1 e))
  (jpgJobs ++ rawJobs).map (fun j => (j.1, j.2, oracle j.1))

/-- Modelled from the spec: `resetOverRuleFlag` is imported by the
set-ratings route from `controllers/database` but its definition is not
among the provided sources.  Per §4.2 of the specification it "clears the
overrule flag on every record for the collection, leaving ratings
untouched". -/
def resetOverRuleFlag (store : Store) : Store :=
  store.map (fun p => (p.1, { p.2 with overRuleFileRating := some false }))

/-- The outcome of one batch apply call: the final table, the chronological
effect trace, and the two counters of the response body. -/
structure SetRatingsResult where
  store : Store
  trace : List ApplyEvent
  dbUpdatesCount : Nat
  fileUpdatesCount : Nat
  deriving Repr

/-- The POST handler of `src/app/api/set-ratings/route.ts`.  Effects in
source order: loop 1 only accumulates jobs; loops 2 and 3 accumulate jobs
and upsert the database per item; then the accumulated jobs run through
`updateRatings` and settle; finally `resetOverRuleFlag` runs once. -/
def setRatingsPost (fs : List String) (folderPath rawFolder : String)
    (dbRatings jpgRatings rawRatings : List RatingItem)
    (store : Store) (now : Nat) (oracle : String → Bool) : SetRatingsResult :=
  let jobs1 := dbLoopJobs fs folderPath rawFolder dbRatings
  let store1 := (applyStoreWrites jpgRatings store now).1
  let evs2 := (applyStoreWrites jpgRatings store now).2
  let jobs2 := jpgLoopJobs fs folderPath rawFolder jpgRatings
  let store2 := (applyStoreWrites rawRatings store1 now).1
  let evs3 := (applyStoreWrites rawRatings store1 now).2
  let jobs3 := rawLoopJobs fs folderPath rawRatings
  let results := updateRatingsModel (jobs1 ++ jobs2 ++ jobs3) oracle
  let fileEvents := results.map (fun r => ApplyEvent.fileJob r.1 r.2.1 r.2.2)
  let store3 := resetOverRuleFlag store2
  { store := store3
    trace := evs2 ++ evs3 ++ fileEvents ++ [ApplyEvent.reset]
    dbUpdatesCount := jpgRatings.length + rawRatings.length
    fileUpdatesCount := (results.filter (fun r => r.2.2)).length }

/-! ### Helper lemmas -/

theorem mem_dedupFirstAux (a : String) :
    ∀ (l seen : List String), a ∈ dedupFirstAux seen l ↔ a ∈ l ∧ a ∉ seen := by
  intro l
  induction l with
  | nil => intro seen; simp [dedupFirstAux]
  | cons x xs ih =>
    intro seen
    by_cases hx : x ∈ seen
    · rw [show dedupFirstAux seen (x :: xs) = dedupFirstAux seen xs from by
        simp [dedupFirstAux, hx]]
      rw [ih]
      constructor
      · rintro ⟨h1, h2⟩
        exact ⟨List.mem_cons_of_mem _ h1, h2⟩
      · rintro ⟨h1, h2⟩
        rcases List.mem_cons.mp h1 with h | h
        · exact absurd (h ▸ hx) h2
        · exact ⟨h, h2⟩
    · rw [show dedupFirstAux seen (x :: xs) = x :: dedupFirstAux (x :: seen) xs
        from by simp [dedupFirstAux, hx]]
      simp only [List.mem_cons, ih]
      constructor
      · rintro (h | ⟨h1, h2⟩)
        · exact ⟨Or.inl h, h ▸ hx⟩
        · exact ⟨Or.inr h1, fun hs => h2 (Or.inr hs)⟩
      · rintro ⟨h1, h2⟩
        rcases h1 with h | h
        · exact Or.inl h
        · by_cases hax : a = x
          · exact Or.inl hax
          · exact Or.inr ⟨h, fun hs => hs.elim hax h2⟩

theorem nodup_dedupFirstAux :
    ∀ (l seen : List String), (dedupFirstAux seen l).Nodup := by
  intro l
  induction l with
  | nil => intro seen; simp [dedupFirstAux]
  | cons x xs ih =>
    intro seen
    by_cases hx : x ∈ seen
    · simpa [dedupFirstAux, hx] using ih seen
    · rw [show dedupFirstAux seen (x :: xs) = x :: dedupFirstAux (x :: seen) xs
        from by simp [dedupFirstAux, hx]]
      refine List.nodup_cons.mpr ⟨fun hmem => ?_, ih _⟩
      exact ((mem_dedupFirstAux x xs (x :: seen)).mp hmem).2 (List.mem_cons_self x seen)

theorem nodup_dedupFirst (l : List String) : (dedupFirst l).Nodup :=
  nodup_dedupFirstAux l []

/-- The item the aggregator loop contributes to bucket `b` for a given
file id, if any. -/
def bucketItem (b : Bucket) (g : String → Option (Bucket × Int))
    (id : String) : Option RatingItem :=
  (g id).bind (fun br => if br.1 = b then some ⟨id, br.2⟩ else none)

theorem bucketItem_some_facts (b : Bucket) (g : String → Option (Bucket × Int))
    (id : String) (it : RatingItem) (h : bucketItem b g id = some it) :
    it.fileName = id ∧ g id = some (b, it.rating) := by
  unfold bucketItem at h
  rw [Option.bind_eq_some] at h
  obtain ⟨br, hg, hif⟩ := h
  by_cases hb : br.1 = b
  · rw [if_pos hb] at hif
    have h2 := Option.some.inj hif
    subst h2
    refine ⟨rfl, ?_⟩
    rw [hg, ← hb]
  · rw [if_neg hb] at hif
    exact absurd hif (by simp)

theorem foldl_aggStep (g : String → Option (Bucket × Int)) :
    ∀ (ids : List String) (acc : AggregatedRatings),
    ids.foldl (aggStep g) acc =
      ⟨acc.dbRatings ++ ids.filterMap (bucketItem Bucket.db g),
       acc.jpgRatings ++ ids.filterMap (bucketItem Bucket.jpg g),
       acc.rawRatings ++ ids.filterMap (bucketItem Bucket.raw g)⟩ := by
  intro ids
  induction ids with
  | nil => intro acc; simp
  | cons x xs ih =>
    intro acc
    rw [List.foldl_cons, ih]
    cases hg : g x with
    | none =>
      simp [aggStep, hg, bucketItem, List.filterMap_cons]
    | some br =>
      obtain ⟨b, r⟩ := br
      cases b <;>
        simp [aggStep, hg, bucketItem, List.filterMap_cons, List.append_assoc]

theorem filterMap_bucketItem_names (b : Bucket)
    (g : String → Option (Bucket × Int)) :
    ∀ ids : List String,
    (ids.filterMap (bucketItem b g)).map RatingItem.fileName =
      ids.filter (fun id => (bucketItem b g id).isSome) := by
  intro ids
  induction ids with
  | nil => simp
  | cons x xs ih =>
    cases h : bucketItem b g x with
    | none => simp [List.filterMap_cons, h, ih]
    | some it =>
      have hname : it.fileName = x := (bucketItem_some_facts b g x it h).1
      simp [List.filterMap_cons, h, ih, hname]

theorem bucketItem_isSome_exists (b : Bucket)
    (g : String → Option (Bucket × Int)) (id : String)
    (h : (bucketItem b g id).isSome = true) : ∃ r, g id = some (b, r) := by
  rw [Option.isSome_iff_exists] at h
  obtain ⟨it, hit⟩ := h
  exact ⟨it.rating, (bucketItem_some_facts b g id it hit).2⟩

theorem fileBucketAux_some_ne_zero (d : Option Int) (o : Bool)
    (j r0 : Option Int) (b : Bucket) (r : Int)
    (h : fileBucketAux d o j r0 = some (b, r)) : r ≠ 0 := by
  unfold fileBucketAux at h
  split_ifs at h with h1 h2 h3 h4
  · obtain ⟨-, hne, h0⟩ := h1
    cases d with
    | none => exact absurd rfl hne
    | some v =>
      simp only [Option.getD_some] at h
      have hr : v = r := congrArg Prod.snd (Option.some.inj h)
      intro h0'
      exact h0 (by rw [hr, h0'])
  · obtain ⟨hne, h0, -⟩ := h2
    cases d with
    | none => exact absurd rfl hne
    | some v =>
      simp only [Option.getD_some] at h
      have hr : v = r := congrArg Prod.snd (Option.some.inj h)
      intro h0'
      exact h0 (by rw [hr, h0'])
  · obtain ⟨hne, h0, -, -⟩ := h3
    cases j with
    | none => exact absurd rfl hne
    | some v =>
      simp only [Option.getD_some] at h
      have hr : v = r := congrArg Prod.snd (Option.some.inj h)
      intro h0'
      exact h0 (by rw [hr, h0'])
  · obtain ⟨hne, h0, -, -⟩ := h4
    cases r0 with
    | none => exact absurd rfl hne
    | some v =>
      simp only [Option.getD_some] at h
      have hr : v = r := congrArg Prod.snd (Option.some.inj h)
      intro h0'
      exact h0 (by rw [hr, h0'])

theorem filters_disjoint (b1 b2 : Bucket) (hb : b1 ≠ b2)
    (g : String → Option (Bucket × Int)) (ids : List String) :
    (ids.filter (fun id => (bucketItem b1 g id).isSome)).Disjoint
      (ids.filter (fun id => (bucketItem b2 g id).isSome)) := by
  intro a h1 h2
  obtain ⟨r1, hg1⟩ := bucketItem_isSome_exists b1 g a (List.mem_filter.mp h1).2
  obtain ⟨r2, hg2⟩ := bucketItem_isSome_exists b2 g a (List.mem_filter.mp h2).2
  rw [hg1] at hg2
  exact hb (congrArg Prod.fst (Option.some.inj hg2))

theorem aggregateRatings_no_conflicts (dbMap : List (String × Option DbRating))
    (jpgMap rawMap : List (String × Option Int)) :
    aggregateRatings dbMap jpgMap rawMap false =
      ⟨(allFileIds dbMap jpgMap rawMap).filterMap
         (bucketItem Bucket.db (fun fileId =>
           fileBucket (lookupJoin dbMap fileId) (lookupJoin jpgMap fileId)
             (lookupJoin rawMap fileId))),
       (allFileIds dbMap jpgMap rawMap).filterMap
         (bucketItem Bucket.jpg (fun fileId =>
           fileBucket (lookupJoin dbMap fileId) (lookupJoin jpgMap fileId)
             (lookupJoin rawMap fileId))),
       (allFileIds dbMap jpgMap rawMap).filterMap
         (bucketItem Bucket.raw (fun fileId =>
           fileBucket (lookupJoin dbMap fileId) (lookupJoin jpgMap fileId)
             (lookupJoin rawMap fileId)))⟩ := by
  unfold aggregateRatings
  rw [if_neg (by simp)]
  rw [foldl_aggStep]
  simp

/-- C10: for every input (and either value of the conflicts flag), the three
buckets emitted by `aggregateRatings` are pairwise disjoint by photo
identity — each fileId occurs at most once across all three job lists — and
every emitted pair carries a non-zero (hence non-null) rating. -/
theorem C10_bucket_invariants (dbMap : List (String × Option DbRating))
    (jpgMap rawMap : List (String × Option Int)) (hasConflicts : Bool) :
    (((aggregateRatings dbMap jpgMap rawMap hasConflicts).dbRatings.map
        RatingItem.fileName) ++
      ((aggregateRatings dbMap jpgMap rawMap hasConflicts).jpgRatings.map
        RatingItem.fileName) ++
      ((aggregateRatings dbMap jpgMap rawMap hasConflicts).rawRatings.map
        RatingItem.fileName)).Nodup ∧
    ∀ it ∈ (aggregateRatings dbMap jpgMap rawMap hasConflicts).dbRatings ++
        (aggregateRatings dbMap jpgMap rawMap hasConflicts).jpgRatings ++
        (aggregateRatings dbMap jpgMap rawMap hasConflicts).rawRatings,
      it.rating ≠ 0 := by
  cases hasConflicts with
  | true => simp [aggregateRatings]
  | false =>
    rw [aggregateRatings_no_conflicts]
    constructor
    · rw [filterMap_bucketItem_names, filterMap_bucketItem_names,
        filterMap_bucketItem_names]
      have hnd : (allFileIds dbMap jpgMap rawMap).Nodup := nodup_dedupFirst _
      have hA := hnd.filter
        (fun id => (bucketItem Bucket.db (fun fileId =>
          fileBucket (lookupJoin dbMap fileId) (lookupJoin jpgMap fileId)
            (lookupJoin rawMap fileId)) id).isSome)
      have hB := hnd.filter
        (fun id => (bucketItem Bucket.jpg (fun fileId =>
          fileBucket (lookupJoin dbMap fileId) (lookupJoin jpgMap fileId)
            (lookupJoin rawMap fileId)) id).isSome)
      have hC := hnd.filter
        (fun id => (bucketItem Bucket.raw (fun fileId =>
          fileBucket (lookupJoin dbMap fileId) (lookupJoin jpgMap fileId)
            (lookupJoin rawMap fileId)) id).isSome)
      refine (hA.append hB (filters_disjoint _ _ (by decide) _ _)).append hC ?_
      rw [List.disjoint_append_left]
      exact ⟨filters_disjoint _ _ (by decide) _ _,
        filters_disjoint _ _ (by decide) _ _⟩
    · intro it hit
      rcases List.mem_append.mp hit with hit' | hit'
      · rcases List.mem_append.mp hit' with h | h
        · obtain ⟨a, -, ha⟩ := List.mem_filterMap.mp h
          exact fileBucketAux_some_ne_zero _ _ _ _ _ _
            (bucketItem_some_facts _ _ _ _ ha).2
        · obtain ⟨a, -, ha⟩ := List.mem_filterMap.mp h
          exact fileBucketAux_some_ne_zero _ _ _ _ _ _
            (bucketItem_some_facts _ _ _ _ ha).2
      · obtain ⟨a, -, ha⟩ := List.mem_filterMap.mp hit'
        exact fileBucketAux_some_ne_zero _ _ _ _ _ _
          (bucketItem_some_facts _ _ _ _ ha).2

theorem gate_empty (st : ListState) (f : String) (hf : f ∈ st.imageFiles)
    (hc : (hasRatingConflict st f || hasRawRatingConflict st f ||
      hasJpgRawMismatch st f) = true) :
    handleApplyAggregate st = ⟨[], [], []⟩ := by
  have hany : hasAnyConflicts st = true := by
    unfold hasAnyConflicts
    rw [List.any_eq_true]
    exact ⟨f, hf, hc⟩
  unfold handleApplyAggregate
  rw [hany]
  simp [aggregateRatings]

/-- C1: whenever the collection snapshot contains at least one photo that
classifies as `jpg-conflict`, `raw-conflict` or `jpg-raw-mismatch`, the
batch aggregation as invoked by `handleApplyRatings` returns a result with
all three job lists empty.  The model is a total function, so this is a
defined no-op result, not an exception. -/
theorem C1_conflict_gate (st : ListState) (f : String)
    (hf : f ∈ st.imageFiles)
    (hc : hasRatingConflict st f = true ∨ hasRawRatingConflict st f = true ∨
      hasJpgRawMismatch st f = true) :
    handleApplyAggregate st = ⟨[], [], []⟩ := by
  apply gate_empty st f hf
  rcases hc with h | h | h <;> simp [h]

theorem C1_conflict_gate_witness :
    handleApplyAggregate
      ⟨["a.jpg"], [("a", ⟨some 3, none⟩)], [("a", some 5)], []⟩ =
      ⟨[], [], []⟩ :=
  C1_conflict_gate ⟨["a.jpg"], [("a", ⟨some 3, none⟩)], [("a", some 5)], []⟩
    "a.jpg" (by decide) (Or.inl (by decide))

/-- C5: once a photo's stored record has `overRuleFileRating = true` and a
present (non-null, non-zero) stored rating, the detector never reports
`jpg-conflict` or `raw-conflict` for it — and not `jpg-raw-mismatch`
either — no matter what the JPG- and RAW-embedded ratings are. -/
theorem C5_overrule_suppression (st : ListState) (fileName : String)
    (r : RatingRecord) (v : Int)
    (hrec : st.ratings.lookup (getFileIdStr fileName) = some r)
    (hover : r.overRuleFileRating = some true)
    (hrat : r.rating = some v) (hv : v ≠ 0) :
    hasRatingConflict st fileName = false ∧
    hasRawRatingConflict st fileName = false ∧
    hasJpgRawMismatch st fileName = false := by
  refine ⟨?_, ?_, ?_⟩ <;>
    simp [hasRatingConflict, hasRawRatingConflict, hasJpgRawMismatch,
      hrec, hover, hrat, truthyFlag, truthyInt, hv]

theorem C5_overrule_suppression_witness :
    hasRatingConflict
        ⟨["b.jpg"], [("b", ⟨some 5, some true⟩)], [("b", some 2)],
          [("b", some 1)]⟩ "b.jpg" = false ∧
    hasRawRatingConflict
        ⟨["b.jpg"], [("b", ⟨some 5, some true⟩)], [("b", some 2)],
          [("b", some 1)]⟩ "b.jpg" = false ∧
    hasJpgRawMismatch
        ⟨["b.jpg"], [("b", ⟨some 5, some true⟩)], [("b", some 2)],
          [("b", some 1)]⟩ "b.jpg" = false :=
  C5_overrule_suppression
    ⟨["b.jpg"], [("b", ⟨some 5, some true⟩)], [("b", some 2)],
      [("b", some 1)]⟩ "b.jpg" ⟨some 5, some true⟩ 5 (by decide) rfl rfl
    (by decide)

/-- C6: a photo with no counting stored rating whose JPG- and RAW-embedded
ratings are both present, non-zero and different classifies as
`jpg-raw-mismatch`, and its presence in the collection forces the batch
aggregation invoked by `handleApplyRatings` to return empty job lists. -/
theorem C6_mismatch_blocks (st : ListState) (f : String) (j r : Int)
    (hj : lookupJoin st.exifData (getFileIdStr f) = some j) (hj0 : j ≠ 0)
    (hr : lookupJoin st.rawExifData (getFileIdStr f) = some r) (hr0 : r ≠ 0)
    (hjr : j ≠ r)
    (hdb : truthyInt ((st.ratings.lookup (getFileIdStr f)).bind
      RatingRecord.rating) = false) :
    hasJpgRawMismatch st f = true ∧
      (f ∈ st.imageFiles → handleApplyAggregate st = ⟨[], [], []⟩) := by
  have hm : hasJpgRawMismatch st f = true := by
    simp [hasJpgRawMismatch, hj, hr, hdb, hj0, hr0, hjr]
  refine ⟨hm, fun hf => gate_empty st f hf ?_⟩
  simp [hm]

theorem C6_mismatch_blocks_witness :
    hasJpgRawMismatch ⟨["d.jpg"], [], [("d", some 4)], [("d", some 2)]⟩
        "d.jpg" = true ∧
      ("d.jpg" ∈
          (ListState.mk ["d.jpg"] [] [("d", some 4)]
            [("d", some 2)]).imageFiles →
        handleApplyAggregate
            ⟨["d.jpg"], [], [("d", some 4)], [("d", some 2)]⟩ =
          ⟨[], [], []⟩) :=
  C6_mismatch_blocks ⟨["d.jpg"], [], [("d", some 4)], [("d", some 2)]⟩
    "d.jpg" 4 2 (by decide) (by decide) (by decide) (by decide) (by decide)
    (by decide)

theorem data_append (a b : String) : (a ++ b).data = a.data ++ b.data := rfl

theorem lastDotSplit_of_not_mem (cs : List Char) (h : '.' ∉ cs) :
    lastDotSplit cs = none := by
  induction cs with
  | nil => rfl
  | cons c rest ih =>
    have hc : ¬ c = '.' := fun e => h (e ▸ List.mem_cons_self c rest)
    have hr : '.' ∉ rest := fun e => h (List.mem_cons_of_mem c e)
    simp [lastDotSplit, ih hr, hc]

theorem lastDotSplit_append_ext (name ext : List Char) (hext : '.' ∉ ext) :
    lastDotSplit (name ++ '.' :: ext) = some name := by
  induction name with
  | nil => simp [lastDotSplit, lastDotSplit_of_not_mem ext hext]
  | cons c rest ih => simp [lastDotSplit, ih]

theorem stripExtCore_no_dot (cs : List Char) (h : '.' ∉ cs) :
    stripExtCore cs = cs := by
  rw [stripExtCore, lastDotSplit_of_not_mem cs h]
  rfl

theorem stripExtCore_append_ext (name ext : List Char) (hext : '.' ∉ ext) :
    stripExtCore (name ++ '.' :: ext) = name := by
  rw [stripExtCore, lastDotSplit_append_ext name ext hext]
  rfl

theorem parseNameCore_no_dot (cs : List Char) (h : '.' ∉ cs) :
    parseNameCore cs = cs := by
  have hdd : cs ≠ ['.', '.'] :=
    fun e => h (e ▸ (by decide : '.' ∈ ['.', '.']))
  unfold parseNameCore
  rw [if_neg hdd]
  cases cs with
  | nil => rfl
  | cons c rest =>
    have hc : ¬ c = '.' := fun e => h (e ▸ List.mem_cons_self c rest)
    show (if c = '.' then
        match lastDotSplit rest with
        | none => c :: rest
        | some r => '.' :: r
      else stripExtCore (c :: rest)) = c :: rest
    rw [if_neg hc]
    exact stripExtCore_no_dot _ h

theorem parseNameCore_append_ext (name ext : List Char) (hname : name ≠ [])
    (hext1 : ext ≠ []) (hext : '.' ∉ ext) :
    parseNameCore (name ++ '.' :: ext) = name := by
  obtain ⟨c, rest, rfl⟩ : ∃ c r, name = c :: r := by
    cases name with
    | nil => exact absurd rfl hname
    | cons c r => exact ⟨c, r, rfl⟩
  have hdd : (c :: rest) ++ '.' :: ext ≠ ['.', '.'] := by
    intro he
    have hlen := congrArg List.length he
    have hpos : 0 < ext.length := List.length_pos.mpr hext1
    simp [List.length_append] at hlen
    omega
  rw [List.cons_append]
  rw [List.cons_append] at hdd
  unfold parseNameCore
  rw [if_neg hdd]
  by_cases hc : c = '.'
  · subst hc
    show (if '.' = '.' then
        match lastDotSplit (rest ++ '.' :: ext) with
        | none => '.' :: (rest ++ '.' :: ext)
        | some r => '.' :: r
      else stripExtCore ('.' :: (rest ++ '.' :: ext))) = '.' :: rest
    rw [if_pos rfl]
    simp [lastDotSplit_append_ext rest ext hext]
  · show (if c = '.' then
        match lastDotSplit (rest ++ '.' :: ext) with
        | none => c :: (rest ++ '.' :: ext)
        | some r => '.' :: r
      else stripExtCore (c :: (rest ++ '.' :: ext))) = c :: rest
    rw [if_neg hc, ← List.cons_append]
    exact stripExtCore_append_ext (c :: rest) ext hext

/-- C9 counterexample: the claim says every identity-deriving call site
removes the text after the last dot (so `".profile"` would map to `""`,
as `getFileId` does), but the route call sites use `path.parse(...).name`,
which returns a hidden-file name whole: the two derivations disagree on
`".profile"`. -/
theorem C9_identity_counterexample :
    parseNameStr ".profile" = ".profile" ∧ getFileIdStr ".profile" = "" :=
  ⟨by decide, by decide⟩

/-- C9 (amended): `getFileId` (and, away from the hidden-file corner case,
`path.parse(...).name` at the route call sites) strips the final extension:
dot-free names are returned unchanged by both derivations; for any
extension `"." ++ ext` with `ext` dot-free, `getFileId (name ++ "." ++ ext)
= name` (hence the result is independent of the extension); and
`path.parse(...).name` agrees whenever the base name and the extension are
non-empty.  The derivations differ only when the base name is empty, where
`path.parse` keeps the whole name (`".profile"`). -/
theorem C9_identity_derivation_amended :
    (∀ s : String, '.' ∉ s.data → getFileIdStr s = s ∧ parseNameStr s = s) ∧
    (∀ name ext : String, '.' ∉ ext.data →
      getFileIdStr (name ++ "." ++ ext) = name) ∧
    (∀ name ext : String, name.data ≠ [] → ext.data ≠ [] →
      '.' ∉ ext.data → parseNameStr (name ++ "." ++ ext) = name) := by
  have hdata : ∀ name ext : String,
      (name ++ "." ++ ext).data = name.data ++ '.' :: ext.data := by
    intro name ext
    rw [data_append, data_append]
    simp
  refine ⟨fun s hs => ⟨?_, ?_⟩, fun name ext hext => ?_,
    fun name ext hn he hext => ?_⟩
  · show String.mk (stripExtCore s.data) = s
    rw [stripExtCore_no_dot _ hs]
  · show String.mk (parseNameCore s.data) = s
    rw [parseNameCore_no_dot _ hs]
  · show String.mk (stripExtCore (name ++ "." ++ ext).data) = name
    rw [hdata, stripExtCore_append_ext _ _ hext]
  · show String.mk (parseNameCore (name ++ "." ++ ext).data) = name
    rw [hdata, parseNameCore_append_ext _ _ hn he hext]

theorem C9_identity_derivation_amended_witness :
    getFileIdStr ("img1" ++ "." ++ "jpg") = "img1" ∧
    parseNameStr ("img1" ++ "." ++ "cr2") = "img1" :=
  ⟨C9_identity_derivation_amended.2.1 "img1" "jpg" (by decide),
   C9_identity_derivation_amended.2.2 "img1" "cr2" (by decide) (by decide)
     (by decide)⟩

/-- C7: evaluation at the failing input.  The photo `img1` has a stored
record `{rating: 5, overRuleFileRating: true}` and embedded ratings jpg=4,
raw=3.  `handleApplyRatings` builds its db map as
`{ rating: rating.rating }`, dropping the overrule flag, so the batch apply
flow emits NO job at all for the photo (first conjunct), while
`aggregateRatings` itself, when handed the flag, puts `(img1, 5)` into
`dbRatings` as the claim and the aggregator's documentation state (second
conjunct). -/
theorem C7_overrule_flag_dropped_eval :
    handleApplyAggregate
        ⟨["img1.jpg"], [("img1", ⟨some 5, some true⟩)], [("img1", some 4)],
          [("img1", some 3)]⟩ = ⟨[], [], []⟩ ∧
    aggregateRatings [("img1", some ⟨some 5, some true⟩)]
        [("img1", some 4)] [("img1", some 3)] false =
      ⟨[⟨"img1", 5⟩], [], []⟩ :=
  ⟨by decide, by decide⟩

/-- C2: evaluation at the failing input.  The user resolves a
`jpg-conflict` (stored=3, jpg=5) with "use stored rating"; the client sends
`overRuleFileRating: true`, but the ratings route destructures only
`{fileName, rating, folderPath}` and calls `upsertRating` without the
fourth argument, so the persisted record keeps `overRuleFileRating = false`
(first conjunct), and a detector run over the reloaded store against the
same jpg=5 reports `jpg-conflict` again (second conjunct) — the claim
requires `overruleFileRating = true` and no re-flagging. -/
theorem C2_use_stored_rating_flag_lost :
    (ratingsPost [("img1", ⟨some 3, some false, 0⟩)] "img1.jpg" (some 3)
        1).2 = [("img1", ⟨some 3, some false, 1⟩)] ∧
    hasRatingConflict
        ⟨["img1.jpg"], [("img1", ⟨some 3, some false⟩)], [("img1", some 5)],
          []⟩ "img1.jpg" = true :=
  ⟨by decide, by decide⟩

/-- C3 counterexample: the Rating Store's upsert operation itself
(`upsertRating` in `src/controllers/database.ts`) performs no range check:
called with rating 7 on an empty store it creates a record with rating 7
instead of rejecting. -/
theorem C3_upsert_no_validation_counterexample :
    (upsertRating "img1" [] (some 7) (OverRuleArg.bool false) 0).2 =
      [("img1", ⟨some 7, some false, 0⟩)] := by decide

/-- C3 (amended): the range validation lives in the ratings API route, not
in the store operation: for every non-null rating outside `{1..5}` the
POST handler of `src/app/api/ratings/route.ts` rejects synchronously with
the validation error and leaves the store untouched (`upsertRating` is not
reached); `upsertRating` itself persists whatever value its callers pass. -/
theorem C3_route_validates (store : Store) (fileName : String) (r : Int)
    (now : Nat) (hn : ¬ fileName = "") (hr : r < 1 ∨ 5 < r) :
    ratingsPost store fileName (some r) now =
      (Except.error "Rating must be an integer between 1 and 5, or null",
        store) := by
  unfold ratingsPost
  rw [if_neg hn, if_pos]
  refine ⟨by simp, ?_⟩
  simp only [decide_eq_true_eq]
  rintro ⟨h1, h2⟩
  rcases hr with h | h <;> omega

theorem C3_route_validates_witness :
    ratingsPost [] "img1.jpg" (some 7) 0 =
      (Except.error "Rating must be an integer between 1 and 5, or null",
        []) :=
  C3_route_validates [] "img1.jpg" 7 0 (by decide) (Or.inr (by decide))

theorem applyStoreWrites_trace :
    ∀ (items : List RatingItem) (store : Store) (now : Nat),
    (applyStoreWrites items store now).2 =
      items.map (fun it => ApplyEvent.dbWrite it.fileName) := by
  intro items
  induction items with
  | nil => intro store now; rfl
  | cons it rest ih =>
    intro store now
    simp only [applyStoreWrites, List.map_cons]
    rw [ih]

theorem countP_isReset_map_dbWrite (items : List RatingItem) :
    (items.map (fun it => ApplyEvent.dbWrite it.fileName)).countP isReset = 0 := by
  rw [List.countP_eq_zero]
  intro e he
  obtain ⟨it, -, rfl⟩ := List.mem_map.mp he
  simp [isReset]

theorem countP_isReset_map_fileJob (results : List (String × Int × Bool)) :
    (results.map (fun r => ApplyEvent.fileJob r.1 r.2.1 r.2.2)).countP
      isReset = 0 := by
  rw [List.countP_eq_zero]
  intro e he
  obtain ⟨r, -, rfl⟩ := List.mem_map.mp he
  simp [isReset]

theorem getLast?_snoc_reset (l : List ApplyEvent) :
    (l ++ [ApplyEvent.reset]).getLast? = some ApplyEvent.reset :=
  List.getLast?_concat l

theorem map_const_replicate (l : List α) (b : β) :
    l.map (fun _ => b) = List.replicate l.length b := by
  induction l with
  | nil => rfl
  | cons x xs ih => simp [ih, List.replicate_succ]

/-- C4 (with `resetOverRuleFlag` modelled from the spec, since its
definition is not among the provided sources): in every batch apply the
reset is invoked exactly once, it is the last effect of the handler —
strictly after every database upsert and every settled exiftool write
job — and it clears the overrule flag on every record of the final store
while leaving every record's key and rating unchanged from the pre-reset
store. -/
theorem C4_reset_once_after_all_jobs (fs : List String)
    (folderPath rawFolder : String)
    (dbRatings jpgRatings rawRatings : List RatingItem) (store : Store)
    (now : Nat) (oracle : String → Bool) :
    ((setRatingsPost fs folderPath rawFolder dbRatings jpgRatings rawRatings
        store now oracle).trace.countP isReset = 1) ∧
    ((setRatingsPost fs folderPath rawFolder dbRatings jpgRatings rawRatings
        store now oracle).trace.getLast? = some ApplyEvent.reset) ∧
    ((setRatingsPost fs folderPath rawFolder dbRatings jpgRatings rawRatings
        store now oracle).store.map (fun p => p.2.overRuleFileRating) =
      List.replicate (setRatingsPost fs folderPath rawFolder dbRatings
        jpgRatings rawRatings store now oracle).store.length (some false)) ∧
    ((setRatingsPost fs folderPath rawFolder dbRatings jpgRatings rawRatings
        store now oracle).store.map (fun p => (p.1, p.2.rating)) =
      ((applyStoreWrites rawRatings
          (applyStoreWrites jpgRatings store now).1 now).1).map
        (fun p => (p.1, p.2.rating))) := by
  refine ⟨?_, ?_, ?_, ?_⟩
  · simp only [setRatingsPost]
    rw [List.countP_append, List.countP_append, List.countP_append,
      applyStoreWrites_trace, applyStoreWrites_trace,
      countP_isReset_map_dbWrite, countP_isReset_map_dbWrite,
      countP_isReset_map_fileJob]
    rfl
  · simp only [setRatingsPost]
    exact getLast?_snoc_reset _
  · simp only [setRatingsPost, resetOverRuleFlag, List.map_map,
      List.length_map]
    exact map_const_replicate _ _
  · simp only [setRatingsPost, resetOverRuleFlag, List.map_map]
    rfl

/-- C8 counterexample: a JPG-authoritative photo (jpg bucket item `img1`,
no stored and no RAW rating) whose RAW variant file `f/raw/img1.cr2`
happens to exist on disk gets an exiftool write job queued and performed
against that RAW file — the claim says no write to the photo's RAW file or
sidecar is ever queued in this case. -/
theorem C8_raw_write_counterexample :
    ApplyEvent.fileJob "f/raw/img1.cr2" 5 true ∈
      (setRatingsPost ["f/raw/img1.cr2"] "f" "raw" [] [⟨"img1", 5⟩] [] []
        0 (fun _ => true)).trace := by decide

theorem mem_findFileVariants_raw (fs : List String)
    (folder base rawFolder : String) (exts : List String) (p : String)
    (hp : p ∈ findFileVariants fs folder base exts (some rawFolder)) :
    ∃ ext, ext ∈ exts ∧
      p = joinPath (joinPath folder rawFolder) (base ++ ext) ∧ p ∈ fs := by
  simp only [findFileVariants] at hp
  obtain ⟨ext, hmem, heq⟩ := List.mem_filterMap.mp hp
  by_cases hc : joinPath (joinPath folder rawFolder) (base ++ ext) ∈ fs
  · rw [if_pos hc] at heq
    have hpe := Option.some.inj heq
    exact ⟨ext, hmem, hpe.symm, hpe ▸ hc⟩
  · rw [if_neg hc] at heq
    exact absurd heq (by simp)

theorem endsWithExt_joinPath (sp base ext : String) :
    endsWithExt (joinPath sp (base ++ ext)) ext = true := by
  unfold endsWithExt joinPath
  have hdata : (sp ++ "/" ++ (base ++ ext)).data =
      ((sp ++ "/").data ++ base.data) ++ ext.data := by
    simp [data_append, List.append_assoc]
  rw [hdata, List.isSuffixOf_iff_suffix]
  exact List.suffix_append _ _

/-- C8 (amended): for a batch whose `dbRatings` and `rawRatings` buckets
are empty (pure JPG-authoritative batch), an exiftool write job carrying
the item's rating is queued and settled for EVERY RAW variant of a jpg
item that exists on disk in the `raw` subfolder (first conjunct),
conversely every exiftool write job in the trace targets such an existing
RAW variant of one of the jpg items — so in particular no job ever
touches a JPG file (second conjunct) — and the final store is exactly the
per-item upserts of the jpg ratings followed by the overrule reset (third
conjunct). -/
theorem C8_jpg_bucket_targets (fs : List String)
    (folderPath rawFolder : String) (jpgRatings : List RatingItem)
    (store : Store) (now : Nat) (oracle : String → Bool) :
    (∀ item ∈ jpgRatings,
      ∀ p ∈ findFileVariants fs folderPath (parseNameStr item.fileName)
          RAW_EXTENSIONS (some rawFolder),
        ApplyEvent.fileJob p item.rating (oracle p) ∈
          (setRatingsPost fs folderPath rawFolder [] jpgRatings [] store now
            oracle).trace) ∧
    (∀ p r s, ApplyEvent.fileJob p r s ∈
        (setRatingsPost fs folderPath rawFolder [] jpgRatings [] store now
          oracle).trace →
      ∃ item, item ∈ jpgRatings ∧
        p ∈ findFileVariants fs folderPath (parseNameStr item.fileName)
          RAW_EXTENSIONS (some rawFolder) ∧
        r = item.rating) ∧
    (setRatingsPost fs folderPath rawFolder [] jpgRatings [] store now
        oracle).store =
      resetOverRuleFlag (applyStoreWrites jpgRatings store now).1 := by
  refine ⟨?_, ?_, rfl⟩
  · intro item hitem p hp
    have hjob : (p, item.rating) ∈
        jpgLoopJobs fs folderPath rawFolder jpgRatings := by
      unfold jpgLoopJobs
      rw [List.mem_flatMap]
      exact ⟨item, hitem, List.mem_map.mpr ⟨p, hp, rfl⟩⟩
    obtain ⟨ext, hextmem, hpeq, -⟩ := mem_findFileVariants_raw fs folderPath
      (parseNameStr item.fileName) rawFolder RAW_EXTENSIONS p hp
    have hany : RAW_EXTENSIONS.any (fun e => endsWithExt p e) = true := by
      rw [List.any_eq_true]
      refine ⟨ext, hextmem, ?_⟩
      rw [hpeq]
      exact endsWithExt_joinPath _ _ _
    have hres : (p, item.rating, oracle p) ∈
        updateRatingsModel (jpgLoopJobs fs folderPath rawFolder jpgRatings)
          oracle := by
      unfold updateRatingsModel
      exact List.mem_map.mpr ⟨(p, item.rating),
        List.mem_append.mpr (Or.inr (List.mem_filter.mpr ⟨hjob, hany⟩)), rfl⟩
    have hjobs_eq : dbLoopJobs fs folderPath rawFolder [] ++
        jpgLoopJobs fs folderPath rawFolder jpgRatings ++
        rawLoopJobs fs folderPath [] =
        jpgLoopJobs fs folderPath rawFolder jpgRatings := by
      simp [dbLoopJobs, rawLoopJobs]
    simp only [setRatingsPost, hjobs_eq]
    exact List.mem_append.mpr (Or.inl (List.mem_append.mpr (Or.inr
      (List.mem_map.mpr ⟨(p, item.rating, oracle p), hres, rfl⟩))))
  · intro p r s hmem
    simp only [setRatingsPost, dbLoopJobs, rawLoopJobs, applyStoreWrites,
      List.flatMap_nil, List.nil_append, List.append_nil,
      applyStoreWrites_trace, updateRatingsModel] at hmem
    rcases List.mem_append.mp hmem with hmem' | hmem'
    · rcases List.mem_append.mp hmem' with h | h
      · obtain ⟨it, -, heq⟩ := List.mem_map.mp h
        exact absurd heq (by simp)
      · obtain ⟨j, hj, heq⟩ := List.mem_map.mp h
        obtain ⟨j2, hj2, hjeq⟩ := List.mem_map.mp hj
        have hevent : ApplyEvent.fileJob j2.1 j2.2 (oracle j2.1) =
            ApplyEvent.fileJob p r s := by
          rw [← hjeq] at heq
          exact heq
        obtain ⟨hp, hr, -⟩ := ApplyEvent.fileJob.inj hevent
        rcases List.mem_append.mp hj2 with hj' | hj' <;>
        · obtain ⟨hjobs, -⟩ := List.mem_filter.mp hj'
          obtain ⟨item, hitem, hvar⟩ := List.mem_flatMap.mp hjobs
          obtain ⟨path, hpath, hpair⟩ := List.mem_map.mp hvar
          have hp2 : path = j2.1 := congrArg Prod.fst hpair
          have hr2 : item.rating = j2.2 := congrArg (fun q => q.2) hpair
          exact ⟨item, hitem, by rw [← hp, ← hp2]; exact hpath,
            by rw [← hr, ← hr2]⟩
    · exact absurd (List.mem_singleton.mp hmem') (by simp)

theorem C8_jpg_bucket_targets_witness :
    (ApplyEvent.fileJob "g/rawdir/img2.nef" 4 false ∈
      (setRatingsPost ["g/rawdir/img2.nef"] "g" "rawdir" [] [⟨"img2", 4⟩] []
        [] 0 (fun _ => false)).trace) ∧
    (∃ item, item ∈ [(⟨"img2", 4⟩ : RatingItem)] ∧
      "g/rawdir/img2.nef" ∈ findFileVariants ["g/rawdir/img2.nef"] "g"
        (parseNameStr item.fileName) RAW_EXTENSIONS (some "rawdir") ∧
      (4 : Int) = item.rating) :=
  ⟨(C8_jpg_bucket_targets ["g/rawdir/img2.nef"] "g" "rawdir" [⟨"img2", 4⟩]
      [] 0 (fun _ => false)).1 ⟨"img2", 4⟩ (by decide) "g/rawdir/img2.nef"
      (by decide),
   (C8_jpg_bucket_targets ["g/rawdir/img2.nef"] "g" "rawdir" [⟨"img2", 4⟩]
      [] 0 (fun _ => false)).2.1 "g/rawdir/img2.nef" 4 false (by decide)⟩
